import Mathlib

/-!
Shallow embedding of `src/telegraf-config-app/app/app.py` (Telegraf
Configuration Manager): the configuration persistence and validation
workflow (ConfigStore + SyntaxValidator).

Modelling choices:
- The storage directory `/app/configs` is an association list from
  filename to file data (`Store`).  Filenames are unique (directory
  semantics); `storeInsert` replaces an existing file body in place,
  mirroring `open(path, "w")`.
- A file body is either the JSON serialization of a saved record
  (`FileData.record`) or a body on which `json.load` raises, carrying the
  exception text (`FileData.corrupt`).
- `toml.loads` is abstracted as a parameter
  `tomlLoads : String → Except String Unit`: `.ok ()` when the text
  parses, `.error msg` when it raises `toml.TomlDecodeError` with
  `str(e) = msg`.
- `datetime.now().isoformat()` is a parameter `now : String`.
- Python's `str.strip()` is `strip` (drop whitespace characters from
  both ends of the character list); `filename.endswith(".json")` is
  `endsWithJson` (suffix test on the character list).
- Each Flask handler becomes a function on the store; handlers that
  mutate the directory return the new store alongside their response.
-/

/-- The persisted entity: the JSON document written by `save_config`
(fields `name`, `created_at`, `description`, `telegraf_config`,
`format`). -/
structure ConfigRecord where
  name : String
  created_at : String
  description : String
  telegraf_config : String
  format : String
deriving DecidableEq, Repr

/-- Contents of one file in the storage directory: either a record that
`json.load` deserializes, or a body on which `json.load` raises (the
string carries `str(e)`). -/
inductive FileData where
  | record (r : ConfigRecord)
  | corrupt (msg : String)
deriving DecidableEq, Repr

/-- The storage directory `/app/configs`: filenames paired with file
contents, each filename occurring at most once. -/
abbrev Store := List (String × FileData)

/-- `os.path.exists` / reading a file: first (unique) binding of the
filename. -/
def storeLookup (s : Store) (k : String) : Option FileData :=
  match s with
  | [] => none
  | (k', v) :: rest => if k' = k then some v else storeLookup rest k

/-- `open(path, "w")`: replace the body if the file exists, create the
file otherwise. -/
def storeInsert (s : Store) (k : String) (v : FileData) : Store :=
  match s with
  | [] => [(k, v)]
  | (k', v') :: rest =>
      if k' = k then (k, v) :: rest else (k', v') :: storeInsert rest k v

/-- `os.remove(path)`: drop the binding of the filename. -/
def storeErase (s : Store) (k : String) : Store :=
  match s with
  | [] => []
  | (k', v') :: rest => if k' = k then rest else (k', v') :: storeErase rest k

/-- Python `s.strip()`: remove whitespace from both ends. -/
def strip (s : String) : String :=
  ⟨((s.data.dropWhile Char.isWhitespace).reverse.dropWhile
      Char.isWhitespace).reverse⟩

/-- Python `filename.endswith(".json")`. -/
def endsWithJson (s : String) : Bool := decide (".json".data <:+ s.data)

/-- The fixed storage root (`CONFIG_DIR = "/app/configs"`). -/
def CONFIG_DIR : String := "/app/configs"

/-- Response of `POST /api/config` (`save_config`). -/
inductive SaveResult where
  | ok (message : String) (config_file : String)
  | invalidName (error : String)
  | invalidSyntax (error : String)
deriving DecidableEq, Repr

/-- `save_config` (app.py lines 168-207): trim the name, reject an empty
trimmed name, TOML-validate non-empty content, then write the record as
`<trimmed name>.json`.  Returns the directory after the call and the
HTTP response. -/
def save_config (tomlLoads : String → Except String Unit) (now : String)
    (store : Store) (name description config : String) :
    Store × SaveResult :=
  let config_name := strip name
  if config_name = "" then
    (store, .invalidName "Configuration name is required")
  else
    match (if strip config = "" then Except.ok () else tomlLoads config) with
    | .error e => (store, .invalidSyntax ("Invalid TOML syntax: " ++ e))
    | .ok _ =>
        let config_file := config_name ++ ".json"
        let full_config : ConfigRecord :=
          { name := config_name
            created_at := now
            description := description
            telegraf_config := config
            format := "toml" }
        (storeInsert store config_file (.record full_config),
         .ok "Configuration saved successfully"
           (CONFIG_DIR ++ "/" ++ config_file))

/-- Response of `GET /api/config/<name>` (`get_config`). -/
inductive GetResult where
  | ok (r : ConfigRecord)
  | notFound (error : String)
  | storageFailure (error : String)
deriving DecidableEq, Repr

/-- `get_config` (app.py lines 231-246): look up `<name>.json` (the route
parameter is NOT trimmed), 404 when absent, 500 when `json.load`
raises, otherwise the full record. -/
def get_config (store : Store) (config_name : String) : GetResult :=
  match storeLookup store (config_name ++ ".json") with
  | none => .notFound "Configuration not found"
  | some (.record r) => .ok r
  | some (.corrupt msg) =>
      .storageFailure ("Failed to load configuration: " ++ msg)

/-- Response of `GET /api/config/<name>/download` (`download_config`):
on success the bytes written to the temp file, the suggested
`download_name` and the mimetype of `send_file`. -/
inductive DownloadResult where
  | ok (content : String) (download_name : String) (mimetype : String)
  | notFound (error : String)
  | storageFailure (error : String)
deriving DecidableEq, Repr

/-- `download_config` (app.py lines 248-276): look up `<name>.json`, 404
when absent; otherwise serve exactly the stored `telegraf_config` text
as `<name>.conf`. -/
def download_config (store : Store) (config_name : String) : DownloadResult :=
  match storeLookup store (config_name ++ ".json") with
  | none => .notFound "Configuration not found"
  | some (.record r) =>
      .ok r.telegraf_config (config_name ++ ".conf") "text/plain"
  | some (.corrupt msg) =>
      .storageFailure ("Failed to download configuration: " ++ msg)

/-- Response of `DELETE /api/config/<name>` (`delete_config`). -/
inductive DeleteResult where
  | ok (message : String)
  | notFound (error : String)
deriving DecidableEq, Repr

/-- `delete_config` (app.py lines 278-292): 404 when `<name>.json` is
absent, otherwise remove the file. -/
def delete_config (store : Store) (config_name : String) :
    Store × DeleteResult :=
  match storeLookup store (config_name ++ ".json") with
  | none => (store, .notFound "Configuration not found")
  | some _ =>
      (storeErase store (config_name ++ ".json"),
       .ok "Configuration deleted successfully")

/-- Response of `POST /api/validate-toml` (`validate_toml`). -/
inductive ValidateResult where
  | emptyContent (error : String)
  | valid (message : String)
  | invalid (error : String)
deriving DecidableEq, Repr

/-- `validate_toml` (app.py lines 294-312): empty trimmed content is a
400 error; otherwise `toml.loads` decides, and on failure `str(e)` is
returned verbatim in the `error` field. -/
def validate_toml (tomlLoads : String → Except String Unit)
    (content : String) : ValidateResult :=
  if strip content = "" then .emptyContent "TOML content is empty"
  else
    match tomlLoads content with
    | .ok _ => .valid "Valid TOML syntax"
    | .error e => .invalid e

/-- One element of the `GET /api/configs` listing. -/
structure ConfigSummary where
  name : String
  description : String
  created_at : String
  filename : String
deriving DecidableEq, Repr

/-- `list_configs` (app.py lines 209-229): fold over the directory in
enumeration order; files not ending in `.json` are skipped; a file on
which `json.load` raises aborts the whole handler (the exception escapes
the `for` loop into the `except`, so the accumulated list is discarded
and a 500 error is returned). -/
def list_configs (store : Store) : Except String (List ConfigSummary) :=
  match store with
  | [] => .ok []
  | (filename, fd) :: rest =>
      if endsWithJson filename then
        match fd with
        | .corrupt msg => .error ("Failed to list configurations: " ++ msg)
        | .record r =>
            match list_configs rest with
            | .error e => .error e
            | .ok l =>
                .ok ({ name := r.name
                       description := r.description
                       created_at := r.created_at
                       filename := filename } :: l)
      else list_configs rest

/-- Well-formed directory state: the states reachable through the
handlers from the empty directory.  Filenames are distinct, and every
file is the serialization of a record stored under `<record name>.json`. -/
def WFStore (s : Store) : Prop :=
  (s.map Prod.fst).Nodup ∧
  ∀ p ∈ s, ∃ r : ConfigRecord,
    p.2 = FileData.record r ∧ p.1 = r.name ++ ".json"

/-! ### Association-list lemmas about the directory -/

theorem storeLookup_insert_self (s : Store) (k : String) (v : FileData) :
    storeLookup (storeInsert s k v) k = some v := by
  induction s with
  | nil => simp [storeInsert, storeLookup]
  | cons p rest ih =>
      obtain ⟨k', v'⟩ := p
      by_cases h : k' = k
      · simp [storeInsert, storeLookup, h]
      · simp [storeInsert, storeLookup, h, ih]

theorem storeLookup_insert_ne (s : Store) (k k2 : String) (v : FileData)
    (h : k2 ≠ k) :
    storeLookup (storeInsert s k v) k2 = storeLookup s k2 := by
  induction s with
  | nil => simp [storeInsert, storeLookup, Ne.symm h]
  | cons p rest ih =>
      obtain ⟨k', v'⟩ := p
      by_cases hk : k' = k
      · subst hk
        simp [storeInsert, storeLookup, Ne.symm h]
      · simp only [storeInsert, if_neg hk, storeLookup]
        by_cases hk2 : k' = k2 <;> simp [hk2, ih]

theorem storeInsert_insert (s : Store) (k : String) (v1 v2 : FileData) :
    storeInsert (storeInsert s k v1) k v2 = storeInsert s k v2 := by
  induction s with
  | nil => simp [storeInsert]
  | cons p rest ih =>
      obtain ⟨k', v'⟩ := p
      by_cases h : k' = k
      · simp [storeInsert, h]
      · simp [storeInsert, h, ih]

theorem mem_keys_storeInsert {s : Store} {k x : String} {v : FileData} :
    x ∈ (storeInsert s k v).map Prod.fst ↔ x ∈ s.map Prod.fst ∨ x = k := by
  induction s with
  | nil => simp [storeInsert]
  | cons p rest ih =>
      obtain ⟨k', v'⟩ := p
      by_cases h : k' = k
      · subst h
        simp [storeInsert]
        tauto
      · simp [storeInsert, h, ih]
        tauto

theorem mem_storeInsert {s : Store} {k : String} {v : FileData}
    {p : String × FileData} (h : p ∈ storeInsert s k v) :
    p ∈ s ∨ p = (k, v) := by
  induction s with
  | nil =>
      simp [storeInsert] at h
      exact Or.inr h
  | cons q rest ih =>
      obtain ⟨k', v'⟩ := q
      by_cases hk : k' = k
      · subst hk
        simp [storeInsert] at h
        rcases h with h | h
        · exact Or.inr h
        · exact Or.inl (List.mem_cons_of_mem _ h)
      · simp [storeInsert, hk] at h
        rcases h with h | h
        · exact Or.inl (by simp [h])
        · rcases ih h with h2 | h2
          · exact Or.inl (List.mem_cons_of_mem _ h2)
          · exact Or.inr h2

theorem nodup_keys_storeInsert {s : Store} {k : String} {v : FileData}
    (h : (s.map Prod.fst).Nodup) :
    ((storeInsert s k v).map Prod.fst).Nodup := by
  induction s with
  | nil => simp [storeInsert]
  | cons p rest ih =>
      obtain ⟨k', v'⟩ := p
      simp only [List.map_cons, List.nodup_cons] at h
      by_cases hk : k' = k
      · subst hk
        simpa [storeInsert] using h
      · simp only [storeInsert, if_neg hk, List.map_cons, List.nodup_cons]
        refine ⟨fun hmem => ?_, ih h.2⟩
        rcases mem_keys_storeInsert.1 hmem with h2 | h2
        · exact h.1 h2
        · exact hk h2

theorem WFStore_storeInsert {s : Store} {r : ConfigRecord}
    (h : WFStore s) :
    WFStore (storeInsert s (r.name ++ ".json") (FileData.record r)) := by
  refine ⟨nodup_keys_storeInsert h.1, fun p hp => ?_⟩
  rcases mem_storeInsert hp with h2 | h2
  · exact h.2 p h2
  · exact ⟨r, by simp [h2]⟩

theorem endsWithJson_append (x : String) :
    endsWithJson (x ++ ".json") = true := by
  simp [endsWithJson, String.data_append]

theorem append_json_right_cancel {x y : String}
    (h : x ++ ".json" = y ++ ".json") : x = y := by
  have hd := congrArg String.data h
  simp [String.data_append] at hd
  exact String.ext hd

theorem countP_key_eq_zero {s : Store} {k : String}
    (h : k ∉ s.map Prod.fst) :
    s.countP (fun p => p.1 == k) = 0 := by
  refine List.countP_eq_zero.2 fun p hp => ?_
  simp only [beq_iff_eq, decide_eq_true_eq]
  intro he
  exact h (he ▸ List.mem_map_of_mem Prod.fst hp)

theorem countP_key_eq_one {s : Store} {k : String} {v : FileData}
    (hnd : (s.map Prod.fst).Nodup) (hl : storeLookup s k = some v) :
    s.countP (fun p => p.1 == k) = 1 := by
  induction s with
  | nil => simp [storeLookup] at hl
  | cons p rest ih =>
      obtain ⟨k', v'⟩ := p
      simp only [List.map_cons, List.nodup_cons] at hnd
      by_cases hk : k' = k
      · subst hk
        simp [List.countP_cons, countP_key_eq_zero hnd.1]
      · simp only [storeLookup, if_neg hk] at hl
        rw [List.countP_cons]
        simp [hk, ih hnd.2 hl]

theorem list_configs_ok_of_records (s : Store)
    (h : ∀ p ∈ s, ∃ r : ConfigRecord,
      p.2 = FileData.record r ∧ p.1 = r.name ++ ".json") :
    ∃ l, list_configs s = Except.ok l ∧
      ∀ a : String, l.countP (fun x => x.name == a) =
        s.countP (fun p => p.1 == a ++ ".json") := by
  induction s with
  | nil => exact ⟨[], rfl, fun a => by simp⟩
  | cons p rest ih =>
      obtain ⟨fn, fd⟩ := p
      obtain ⟨r, hr, hfn⟩ := h (fn, fd) (List.mem_cons_self _ _)
      simp only at hr hfn
      subst hr
      subst hfn
      obtain ⟨l, hl, hcount⟩ := ih fun p hp => h p (List.mem_cons_of_mem _ hp)
      refine ⟨{ name := r.name, description := r.description,
                created_at := r.created_at,
                filename := r.name ++ ".json" } :: l, ?_, fun a => ?_⟩
      · simp [list_configs, endsWithJson_append, hl]
      · rw [List.countP_cons, List.countP_cons, hcount a]
        congr 1
        by_cases hname : r.name = a
        · simp [hname]
        · have hne2 : ¬(r.name ++ ".json" = a ++ ".json") :=
            fun he => hname (append_json_right_cancel he)
          simp [hname, hne2]

/-! ### Claims -/

/-- C1 (counterexample): the round trip `save` then `get` on the same
raw name fails when the name carries surrounding whitespace: `save` is
accepted (trimmed name `"x"`), but `get(" x ")` looks up `" x .json"`
untrimmed and answers 404, so no record is returned. -/
theorem C1_counterexample :
    (save_config (fun _ => Except.ok ()) "2024-01-01T00:00:00" []
        " x " "d" "").2 =
      SaveResult.ok "Configuration saved successfully"
        "/app/configs/x.json" ∧
    get_config (save_config (fun _ => Except.ok ()) "2024-01-01T00:00:00" []
        " x " "d" "").1 " x " =
      GetResult.notFound "Configuration not found" := by
  constructor <;> decide

/-- C1 (amended): for every name `a`, description `d` and content `T`
accepted by `save`, `save(name=a, description=d, content=T)` followed by
`get` of the TRIMMED name returns a record whose name field equals `a`
after trimming, whose description equals `d` and whose
`telegraf_config` content equals `T`. -/
theorem C1_roundtrip (tomlLoads : String → Except String Unit)
    (now : String) (store : Store) (a d T : String)
    (hname : strip a ≠ "")
    (hcontent : strip T = "" ∨ tomlLoads T = Except.ok ()) :
    get_config (save_config tomlLoads now store a d T).1 (strip a) =
      GetResult.ok { name := strip a, created_at := now, description := d,
                     telegraf_config := T, format := "toml" } := by
  have hval : (if strip T = "" then Except.ok () else tomlLoads T) =
      Except.ok () := by
    rcases hcontent with hc | hc <;> simp [hc]
  simp [save_config, get_config, hname, hval, storeLookup_insert_self]

/-- Witness for C1 (amended) at a concrete accepted input. -/
theorem C1_roundtrip_witness :
    get_config (save_config (fun _ => Except.ok ()) "t" [] "a" "d"
        "[agent]").1 (strip "a") =
      GetResult.ok { name := strip "a", created_at := "t",
                     description := "d", telegraf_config := "[agent]",
                     format := "toml" } :=
  C1_roundtrip (fun _ => Except.ok ()) "t" [] "a" "d" "[agent]"
    (by decide) (Or.inr rfl)

/-- C2: when the trimmed name is non-empty, the trimmed content is
non-empty and the TOML parse fails with diagnostic `msg`, `save` fails
with the InvalidSyntax error carrying `msg` and the store is exactly
what it was before the call. -/
theorem C2_invalid_syntax (tomlLoads : String → Except String Unit)
    (now : String) (store : Store) (name d content msg : String)
    (hname : strip name ≠ "") (hcontent : strip content ≠ "")
    (hparse : tomlLoads content = Except.error msg) :
    save_config tomlLoads now store name d content =
      (store, SaveResult.invalidSyntax ("Invalid TOML syntax: " ++ msg)) := by
  simp [save_config, hname, hcontent, hparse]

/-- Witness for C2 at a concrete failing parse. -/
theorem C2_invalid_syntax_witness :
    save_config (fun _ => Except.error "boom") "t" [] "x" "d"
        "not valid [[[" =
      ([], SaveResult.invalidSyntax ("Invalid TOML syntax: " ++ "boom")) :=
  C2_invalid_syntax (fun _ => Except.error "boom") "t" [] "x" "d"
    "not valid [[[" "boom" (by decide) (by decide) rfl

/-- C3: `validate` fails with EmptyContent iff the trimmed text is
empty; otherwise it answers valid exactly when the text parses, and on
a parse failure the parser diagnostic is surfaced verbatim in the
`error` field. -/
theorem C3_validate (tomlLoads : String → Except String Unit)
    (text : String) :
    (validate_toml tomlLoads text =
        ValidateResult.emptyContent "TOML content is empty" ↔
      strip text = "") ∧
    (strip text ≠ "" →
      ((validate_toml tomlLoads text = ValidateResult.valid "Valid TOML syntax" ↔
          tomlLoads text = Except.ok ()) ∧
       ∀ e, tomlLoads text = Except.error e →
          validate_toml tomlLoads text = ValidateResult.invalid e)) := by
  by_cases h : strip text = ""
  · refine ⟨⟨fun _ => h, fun _ => by simp [validate_toml, h]⟩,
      fun hne => absurd h hne⟩
  · refine ⟨⟨fun hv => ?_, fun hh => absurd hh h⟩, fun _ => ⟨⟨?_, ?_⟩, ?_⟩⟩
    · cases htl : tomlLoads text <;> simp [validate_toml, h, htl] at hv
    · intro hv
      cases htl : tomlLoads text with
      | ok u => cases u; rfl
      | error e => simp [validate_toml, h, htl] at hv
    · intro htl
      simp [validate_toml, h, htl]
    · intro e htl
      simp [validate_toml, h, htl]

/-- Witness for C3 at a concrete parser and text. -/
theorem C3_validate_witness :
    (validate_toml (fun _ => Except.ok ()) "[agent]" =
        ValidateResult.emptyContent "TOML content is empty" ↔
      strip "[agent]" = "") ∧
    (strip "[agent]" ≠ "" →
      ((validate_toml (fun _ => Except.ok ()) "[agent]" =
          ValidateResult.valid "Valid TOML syntax" ↔
        (fun _ => Except.ok ()) "[agent]" =
          (Except.ok () : Except String Unit)) ∧
       ∀ e, (fun _ => Except.ok ()) "[agent]" =
            (Except.error e : Except String Unit) →
          validate_toml (fun _ => Except.ok ()) "[agent]" =
            ValidateResult.invalid e)) :=
  C3_validate (fun _ => Except.ok ()) "[agent]"

/-- C4: when `<name>.json` is absent from the store, `get`, `download`
and `delete` all answer the NotFound error, and `delete` leaves the
store unchanged. -/
theorem C4_not_found (store : Store) (name : String)
    (habs : storeLookup store (name ++ ".json") = none) :
    get_config store name = GetResult.notFound "Configuration not found" ∧
    download_config store name =
      DownloadResult.notFound "Configuration not found" ∧
    delete_config store name =
      (store, DeleteResult.notFound "Configuration not found") := by
  simp [get_config, download_config, delete_config, habs]

/-- Witness for C4 on the empty store. -/
theorem C4_not_found_witness :
    get_config [] "missing" = GetResult.notFound "Configuration not found" ∧
    download_config [] "missing" =
      DownloadResult.notFound "Configuration not found" ∧
    delete_config [] "missing" =
      ([], DeleteResult.notFound "Configuration not found") :=
  C4_not_found [] "missing" rfl

/-- C6: with a non-empty trimmed name and whitespace-only (or empty)
content, `save` succeeds without consulting the TOML parser (the result
is the same for every parser), and `get` of the trimmed name returns
the record with that content stored as-is. -/
theorem C6_empty_bypass (p1 p2 : String → Except String Unit)
    (now : String) (store : Store) (name d content : String)
    (hname : strip name ≠ "") (hcontent : strip content = "") :
    save_config p1 now store name d content =
      save_config p2 now store name d content ∧
    (save_config p1 now store name d content).2 =
      SaveResult.ok "Configuration saved successfully"
        (CONFIG_DIR ++ "/" ++ (strip name ++ ".json")) ∧
    get_config (save_config p1 now store name d content).1 (strip name) =
      GetResult.ok { name := strip name, created_at := now,
                     description := d, telegraf_config := content,
                     format := "toml" } := by
  refine ⟨?_, ?_, ?_⟩ <;>
    simp [save_config, get_config, hname, hcontent, storeLookup_insert_self]

/-- Witness for C6: empty content is accepted and retrievable. -/
theorem C6_empty_bypass_witness :
    save_config (fun _ => Except.ok ()) "t" [] "x" "d" "" =
      save_config (fun _ => Except.error "always") "t" [] "x" "d" "" ∧
    (save_config (fun _ => Except.ok ()) "t" [] "x" "d" "").2 =
      SaveResult.ok "Configuration saved successfully"
        (CONFIG_DIR ++ "/" ++ (strip "x" ++ ".json")) ∧
    get_config (save_config (fun _ => Except.ok ()) "t" [] "x" "d" "").1
        (strip "x") =
      GetResult.ok { name := strip "x", created_at := "t",
                     description := "d", telegraf_config := "",
                     format := "toml" } :=
  C6_empty_bypass (fun _ => Except.ok ()) (fun _ => Except.error "always")
    "t" [] "x" "d" "" (by decide) (by decide)

/-- C7: whenever the trimmed name is empty, `save` fails with the
InvalidName error regardless of the other fields, and the store is
unchanged. -/
theorem C7_invalid_name (tomlLoads : String → Except String Unit)
    (now : String) (store : Store) (name d content : String)
    (h : strip name = "") :
    save_config tomlLoads now store name d content =
      (store, SaveResult.invalidName "Configuration name is required") := by
  simp [save_config, h]

/-- Witness for C7 at a whitespace-only name. -/
theorem C7_invalid_name_witness :
    save_config (fun _ => Except.ok ()) "t" [] "   " "d" "[agent]" =
      ([], SaveResult.invalidName "Configuration name is required") :=
  C7_invalid_name (fun _ => Except.ok ()) "t" [] "   " "d" "[agent]"
    (by decide)

/-- C8: when `<a>.json` holds record `r`, `download(a)` serves exactly
the stored `telegraf_config` bytes with suggested filename `<a>.conf`;
the description and created_at fields do not influence the output. -/
theorem C8_download (store : Store) (a : String) (r : ConfigRecord)
    (h : storeLookup store (a ++ ".json") = some (FileData.record r)) :
    download_config store a =
      DownloadResult.ok r.telegraf_config (a ++ ".conf") "text/plain" := by
  simp [download_config, h]

/-- Witness for C8 on a one-record store. -/
theorem C8_download_witness :
    download_config [("a.json", FileData.record
        { name := "a", created_at := "t", description := "d",
          telegraf_config := "[agent]", format := "toml" })] "a" =
      DownloadResult.ok
        ({ name := "a", created_at := "t", description := "d",
           telegraf_config := "[agent]",
           format := "toml" } : ConfigRecord).telegraf_config
        ("a" ++ ".conf") "text/plain" :=
  C8_download _ "a" _ rfl

/-- C9: a successful `save` changes the store only at the single file
`<trimmed name>.json`: that file now holds the new record, and every
other filename is bound exactly as before the call. -/
theorem C9_frame (tomlLoads : String → Except String Unit)
    (now : String) (store : Store) (name d content : String)
    (hname : strip name ≠ "")
    (hcontent : strip content = "" ∨ tomlLoads content = Except.ok ()) :
    storeLookup (save_config tomlLoads now store name d content).1
        (strip name ++ ".json") =
      some (FileData.record
        { name := strip name, created_at := now, description := d,
          telegraf_config := content, format := "toml" }) ∧
    ∀ k, k ≠ strip name ++ ".json" →
      storeLookup (save_config tomlLoads now store name d content).1 k =
        storeLookup store k := by
  have hval : (if strip content = "" then Except.ok ()
      else tomlLoads content) = Except.ok () := by
    rcases hcontent with hc | hc <;> simp [hc]
  constructor
  · simp [save_config, hname, hval, storeLookup_insert_self]
  · intro k hk
    simp [save_config, hname, hval, storeLookup_insert_ne _ _ _ _ hk]

/-- Witness for C9 on a store holding an unrelated record. -/
theorem C9_frame_witness :
    storeLookup (save_config (fun _ => Except.ok ()) "t"
        [("b.json", FileData.record
          { name := "b", created_at := "u", description := "e",
            telegraf_config := "[mem]", format := "toml" })]
        "a" "d" "[agent]").1 (strip "a" ++ ".json") =
      some (FileData.record
        { name := strip "a", created_at := "t", description := "d",
          telegraf_config := "[agent]", format := "toml" }) ∧
    ∀ k, k ≠ strip "a" ++ ".json" →
      storeLookup (save_config (fun _ => Except.ok ()) "t"
          [("b.json", FileData.record
            { name := "b", created_at := "u", description := "e",
              telegraf_config := "[mem]", format := "toml" })]
          "a" "d" "[agent]").1 k =
        storeLookup [("b.json", FileData.record
          { name := "b", created_at := "u", description := "e",
            telegraf_config := "[mem]", format := "toml" })] k :=
  C9_frame (fun _ => Except.ok ()) "t" _ "a" "d" "[agent]"
    (by decide) (Or.inr rfl)

/-- A corrupt `.json` file anywhere in the directory makes the whole
listing fail (the exception escapes the `for` loop). -/
theorem list_configs_error_of_corrupt (store : Store) (fn msg : String)
    (hmem : (fn, FileData.corrupt msg) ∈ store)
    (hjson : endsWithJson fn = true) :
    ∃ e, list_configs store = Except.error e := by
  induction store with
  | nil => cases hmem
  | cons q rest ih =>
      rcases List.mem_cons.1 hmem with h | h
      · subst h
        exact ⟨"Failed to list configurations: " ++ msg,
          by simp [list_configs, hjson]⟩
      · obtain ⟨e, he⟩ := ih h
        obtain ⟨fn', fd'⟩ := q
        by_cases hj : endsWithJson fn'
        · cases fd' with
          | corrupt m =>
              exact ⟨"Failed to list configurations: " ++ m,
                by simp [list_configs, hj]⟩
          | record r => exact ⟨e, by simp [list_configs, hj, he]⟩
        · exact ⟨e, by simp [list_configs, hj, he]⟩

/-- Files not ending in `.json` never influence the listing. -/
theorem list_configs_filter_json (store : Store) :
    list_configs store =
      list_configs (store.filter fun p => endsWithJson p.1) := by
  induction store with
  | nil => rfl
  | cons q rest ih =>
      obtain ⟨fn, fd⟩ := q
      rw [List.filter_cons]
      by_cases hj : endsWithJson fn
      · rw [if_pos (by simpa using hj)]
        cases fd with
        | corrupt m => simp [list_configs, hj]
        | record r => simp [list_configs, hj, ih]
      · rw [if_neg (by simpa using hj)]
        simp [list_configs, hj, ih]

/-- C5: starting from a well-formed store, saving under the (trimmed)
name `a` twice with different contents leaves `<a>.json` holding only
the second record with the second save's timestamp, and the listing
afterwards shows exactly one entry named `a`. -/
theorem C5_overwrite (tomlLoads : String → Except String Unit)
    (t1 t2 : String) (store : Store) (a d1 c1 d2 c2 : String)
    (hWF : WFStore store) (ha : strip a = a) (hne : a ≠ "")
    (hdiff : c1 ≠ c2)
    (hv1 : strip c1 = "" ∨ tomlLoads c1 = Except.ok ())
    (hv2 : strip c2 = "" ∨ tomlLoads c2 = Except.ok ()) :
    storeLookup (save_config tomlLoads t2
        (save_config tomlLoads t1 store a d1 c1).1 a d2 c2).1
        (a ++ ".json") =
      some (FileData.record
        { name := a, created_at := t2, description := d2,
          telegraf_config := c2, format := "toml" }) ∧
    ∃ l, list_configs (save_config tomlLoads t2
          (save_config tomlLoads t1 store a d1 c1).1 a d2 c2).1 =
        Except.ok l ∧
      l.countP (fun x => x.name == a) = 1 := by
  have hsa : strip a ≠ "" := by rw [ha]; exact hne
  have hval1 : (if strip c1 = "" then Except.ok () else tomlLoads c1) =
      Except.ok () := by
    rcases hv1 with hc | hc <;> simp [hc]
  have hval2 : (if strip c2 = "" then Except.ok () else tomlLoads c2) =
      Except.ok () := by
    rcases hv2 with hc | hc <;> simp [hc]
  have hs1 : (save_config tomlLoads t1 store a d1 c1).1 =
      storeInsert store (a ++ ".json")
        (FileData.record
          { name := a, created_at := t1, description := d1,
            telegraf_config := c1, format := "toml" }) := by
    simp [save_config, hsa, hval1, ha, hne]
  have hs2 : (save_config tomlLoads t2
      (save_config tomlLoads t1 store a d1 c1).1 a d2 c2).1 =
      storeInsert store (a ++ ".json")
        (FileData.record
          { name := a, created_at := t2, description := d2,
            telegraf_config := c2, format := "toml" }) := by
    rw [hs1]
    simp [save_config, hsa, hval2, ha, hne, storeInsert_insert]
  rw [hs2]
  have hWF2 : WFStore (storeInsert store (a ++ ".json")
      (FileData.record
        { name := a, created_at := t2, description := d2,
          telegraf_config := c2, format := "toml" })) :=
    @WFStore_storeInsert store
      { name := a, created_at := t2, description := d2,
        telegraf_config := c2, format := "toml" } hWF
  refine ⟨storeLookup_insert_self _ _ _, ?_⟩
  obtain ⟨l, hl, hcount⟩ := list_configs_ok_of_records _ hWF2.2
  exact ⟨l, hl, by rw [hcount a]
                   exact countP_key_eq_one hWF2.1
                     (storeLookup_insert_self _ _ _)⟩

/-- Witness for C5 on the empty store with two concrete saves. -/
theorem C5_overwrite_witness :
    storeLookup (save_config (fun _ => Except.ok ()) "t2"
        (save_config (fun _ => Except.ok ()) "t1" [] "a" "d1" "[agent]").1
        "a" "d2" "[mem]").1 ("a" ++ ".json") =
      some (FileData.record
        { name := "a", created_at := "t2", description := "d2",
          telegraf_config := "[mem]", format := "toml" }) ∧
    ∃ l, list_configs (save_config (fun _ => Except.ok ()) "t2"
          (save_config (fun _ => Except.ok ()) "t1" [] "a" "d1"
            "[agent]").1 "a" "d2" "[mem]").1 =
        Except.ok l ∧
      l.countP (fun x => x.name == "a") = 1 :=
  C5_overwrite (fun _ => Except.ok ()) "t1" "t2" [] "a" "d1" "[agent]"
    "d2" "[mem]"
    ⟨List.nodup_nil, fun p hp => absurd hp (List.not_mem_nil p)⟩
    (by decide) (by decide) (by decide) (Or.inr rfl) (Or.inr rfl)

/-- C10: a `.json` file in the directory on which `json.load` raises
makes `list` fail entirely with a storage-failure error (no partial
listing is returned, since the error response carries no list), and
files whose names do not end in `.json` are ignored by `list`. -/
theorem C10_list (store : Store) :
    (∀ fn msg, (fn, FileData.corrupt msg) ∈ store →
      endsWithJson fn = true →
      ∃ e, list_configs store = Except.error e) ∧
    list_configs store =
      list_configs (store.filter fun p => endsWithJson p.1) :=
  ⟨fun fn msg hmem hj => list_configs_error_of_corrupt store fn msg hmem hj,
   list_configs_filter_json store⟩

/-- Witness for C10 on a directory with a good record, a corrupt `.json`
file and a non-`.json` file. -/
theorem C10_list_witness :
    (∃ e, list_configs
        [("a.json", FileData.record
            { name := "a", created_at := "t", description := "d",
              telegraf_config := "[agent]", format := "toml" }),
         ("bad.json", FileData.corrupt "Expecting value"),
         ("notes.txt", FileData.corrupt "ignored")] =
      Except.error e) ∧
    list_configs
        [("a.json", FileData.record
            { name := "a", created_at := "t", description := "d",
              telegraf_config := "[agent]", format := "toml" }),
         ("bad.json", FileData.corrupt "Expecting value"),
         ("notes.txt", FileData.corrupt "ignored")] =
      list_configs
        ([("a.json", FileData.record
            { name := "a", created_at := "t", description := "d",
              telegraf_config := "[agent]", format := "toml" }),
          ("bad.json", FileData.corrupt "Expecting value"),
          ("notes.txt", FileData.corrupt "ignored")].filter
          fun p => endsWithJson p.1) :=
  ⟨(C10_list _).1 "bad.json" "Expecting value" (by decide) (by decide),
   (C10_list _).2⟩
